import Mathlib

/-!
Verification of the hybrid-RAG core of the AI_Planet repository.

Texts are modelled as `List Char` (Python `str`).  The relevant Python
helpers (`str.strip`, `str.lower`, `str.split`, the `in` substring test)
are embedded below; the service code under
`backend/services/hybrid_rag_simple.py`, `backend/services/hybrid_rag_service.py`,
`backend/services/vector_service.py` and `backend/standalone_hybrid_rag.py`
is embedded as executable Lean functions.  External collaborators
(ChromaDB, Neo4j, the text generator) are passed as explicit parameters
or modelled from the specification where noted.
-/

/-- Python whitespace characters recognised by `str.strip` / `\s` (ASCII range;
all texts handled by the services are ASCII apart from the bullet glyph). -/
def isPySpace (c : Char) : Bool :=
  c = ' ' || c = '\t' || c = '\n' || c = '\r' || c = '\x0B' || c = '\x0C'

/-- Python `str.strip()`: drop whitespace from both ends. -/
def pyStrip (l : List Char) : List Char :=
  ((l.dropWhile isPySpace).reverse.dropWhile isPySpace).reverse

/-- ASCII lower-casing of one character (Python `str.lower` on the ASCII texts used here). -/
def pyLowerChar (c : Char) : Char :=
  if 'A' ≤ c ∧ c ≤ 'Z' then Char.ofNat (c.toNat + 32) else c

/-- Python `str.lower()`. -/
def pyLower (l : List Char) : List Char := l.map pyLowerChar

/-- ASCII upper-casing of one character (Python `str.upper`). -/
def pyUpperChar (c : Char) : Char :=
  if 'a' ≤ c ∧ c ≤ 'z' then Char.ofNat (c.toNat - 32) else c

/-- Python `str.upper()`. -/
def pyUpper (l : List Char) : List Char := l.map pyUpperChar

/-- Python substring test `needle in hay`. -/
def isSubOf (needle : List Char) : List Char → Bool
  | [] => needle.isPrefixOf []
  | c :: t => needle.isPrefixOf (c :: t) || isSubOf needle t

/-- Python `text.split(sep)` for a two-character separator `[a, b]`
(the services only split on the two-character separators `"\n\n"` and `". "`):
non-overlapping, leftmost-first occurrences of the separator are removed and
the pieces between them are returned. -/
def splitSep2 (a b : Char) (l : List Char) : List (List Char) :=
  match l with
  | [] => [[]]
  | [c] => [[c]]
  | c :: d :: rest =>
    if c = a ∧ d = b then [] :: splitSep2 a b rest
    else
      match splitSep2 a b (d :: rest) with
      | [] => [[c]]
      | t :: ts => (c :: t) :: ts

/-- Python `text.split(sep)` for a one-character separator (used for `response.split('\n')`). -/
def splitOn1 (sep : Char) (l : List Char) : List (List Char) :=
  match l with
  | [] => [[]]
  | c :: rest =>
    if c = sep then [] :: splitOn1 sep rest
    else
      match splitOn1 sep rest with
      | [] => [[c]]
      | t :: ts => (c :: t) :: ts

/-- Helper for `splitWS`: accumulates the current (reversed) word. -/
def splitWSAux : List Char → List Char → List (List Char)
  | [], cur => if cur.isEmpty then [] else [cur.reverse]
  | c :: rest, cur =>
    if isPySpace c then
      if cur.isEmpty then splitWSAux rest [] else cur.reverse :: splitWSAux rest []
    else splitWSAux rest (c :: cur)

/-- Python `str.split()` with no argument: split on whitespace runs, dropping empty pieces. -/
def splitWS (l : List Char) : List (List Char) := splitWSAux l []

/-- Python `sep.join(parts)`. -/
def joinSep (sep : List Char) : List (List Char) → List Char
  | [] => []
  | [x] => x
  | x :: y :: r => x ++ sep ++ joinSep sep (y :: r)

/-!  ## Chunker (structural splitting policy)

`SimpleHybridRAGService._chunk_text` (services/hybrid_rag_simple.py, lines 32-56)
and `SimpleHybridRAG.chunk_text` (standalone_hybrid_rag.py, lines 55-77) are the
same code up to two constants: the paragraph re-split trigger (`500` resp. `400`)
and the greedy packing threshold (`400` resp. `350`).  They are embedded once,
parameterised by those two constants. -/

/-- The sentence-packing loop of `_chunk_text`: state is the pending
`current_chunk` and the chunk list built so far.  A sentence is appended to the
pending chunk while the combined length stays below `packT`; otherwise the
pending chunk (if non-empty) is flushed, stripped, and a new pending chunk is
started; the final pending chunk is flushed at the end. -/
def packLoop (packT : Nat) : List (List Char) → List Char → List (List Char) → List (List Char)
  | [], cur, acc => if cur.isEmpty then acc else acc ++ [pyStrip cur]
  | s :: rest, cur, acc =>
    if (cur ++ s).length < packT then
      packLoop packT rest (cur ++ s ++ ('.' :: ' ' :: [])) acc
    else if cur.isEmpty then
      packLoop packT rest (s ++ ('.' :: ' ' :: [])) acc
    else
      packLoop packT rest (s ++ ('.' :: ' ' :: [])) (acc ++ [pyStrip cur])

/-- One paragraph of `_chunk_text`: paragraphs whose stripped length is at most
50 are dropped; paragraphs longer than `maxP` are re-split on `". "` and greedily
packed; the rest are emitted stripped. -/
def processPara (maxP packT : Nat) (p : List Char) : List (List Char) :=
  if 50 < (pyStrip p).length then
    if maxP < p.length then packLoop packT (splitSep2 '.' ' ' p) [] []
    else [pyStrip p]
  else []

/-- `_chunk_text` / `chunk_text`: split the document on blank lines (`"\n\n"`)
and process every paragraph in order. -/
def chunkTextP (maxP packT : Nat) (text : List Char) : List (List Char) :=
  (splitSep2 '\n' '\n' text).foldl (fun acc p => acc ++ processPara maxP packT p) []

/-- `SimpleHybridRAGService._chunk_text` (re-split trigger 500, packing threshold 400). -/
def chunkTextService (text : List Char) : List (List Char) := chunkTextP 500 400 text

/-- `SimpleHybridRAG.chunk_text` in the standalone app (trigger 400, threshold 350). -/
def chunkTextStandalone (text : List Char) : List (List Char) := chunkTextP 400 350 text

/-!  ## Chunker (fixed-window policy)

`HybridRAGService._chunk_text` (services/hybrid_rag_service.py, lines 211-219)
delegates to an external recursive character splitter with `chunk_size=300`
and `chunk_overlap=50`; that splitter's code is not part of this repository. -/

/-- Window scanner for the fixed-window chunker; the fuel argument only
bounds recursion and `text.length` is always sufficient, because every step
advances by `stride ≥ 1` characters. -/
def slideGo (size stride : Nat) : Nat → List Char → List (List Char)
  | _, [] => []
  | 0, _ :: _ => []
  | fuel + 1, c :: rest =>
    (c :: rest).take size ::
      (if (c :: rest).length ≤ size then [] else slideGo size stride fuel ((c :: rest).drop stride))

/-- Modelled from the spec: the fixed-window splitting policy of
`HybridRAGService._chunk_text` is delegated to an external text splitter
(absent from this repository); per the spec it slides a window of `size`
characters with `overlap` characters shared between consecutive chunks,
i.e. advancing by `size - overlap` characters per step. -/
def fixedWindowChunk (size overlap : Nat) (text : List Char) : List (List Char) :=
  slideGo size (size - overlap) text.length text

/-!  ## Pattern-based relation extraction

`SimpleHybridRAGService._extract_relationships_simple`
(services/hybrid_rag_simple.py, lines 58-95) and
`SimpleHybridRAG.extract_relationships` (standalone_hybrid_rag.py, lines 79-101)
run `re.finditer` with `re.IGNORECASE` over six regular expressions, all of the
shape `(\w+)\s+(?:VERB|VERB')\s+(\w+)` — the `is|are` pattern additionally has
`(?:a|an)?\s*` before the second capture.  The matcher below implements exactly
the semantics of those six patterns.  `\w` is modelled over the ASCII range
(the documents handled by the services are ASCII). -/

/-- Python `\w` over the ASCII range: alphanumeric or underscore. -/
def isWordChar (c : Char) : Bool := c.isAlphanum || c = '_'

/-- Match the greedy `(\w+)` capture at the current position.  Backtracking into
a shorter capture is impossible for these patterns: what follows the group is a
whitespace atom (`\s`), the end of the pattern, or a comma, none of which can
match the word character the shortened group would expose.  Returns the capture
and the remainder. -/
def grabWord (r : List Char) : Option (List Char × List Char) :=
  let g := r.takeWhile isWordChar
  if g.isEmpty then none else some (g, r.drop g.length)

/-- Case-insensitive literal prefix match (`re.IGNORECASE`). -/
def ciPrefixOf (pat target : List Char) : Bool :=
  (pat.map pyLowerChar).isPrefixOf (target.map pyLowerChar)

/-- `\s*(\w+)` : skip optional whitespace then capture a word.  Giving back
whitespace from the greedy `\s*` cannot help, since `\w` matches no whitespace
character. -/
def grabAfterArticle (r : List Char) : Option (List Char × List Char) :=
  grabWord (r.dropWhile isPySpace)

/-- `(?:a|an)?\s*(\w+)` : the greedy optional group tries the alternative `a`,
then `an`, then matches empty, exactly as the regex engine backtracks. -/
def matchArticle (r : List Char) : Option (List Char × List Char) :=
  (if ciPrefixOf ('a' :: []) r then grabAfterArticle (r.drop 1) else none) <|>
  (if ciPrefixOf ('a' :: 'n' :: []) r then grabAfterArticle (r.drop 2) else none) <|>
  grabAfterArticle r

/-- The part of a pattern after the verb: `\s+` then either
`(?:a|an)?\s*(\w+)` (the `is|are` pattern) or `(\w+)`.  The greedy `\s+` cannot
give back characters: the atoms that follow it start with non-whitespace. -/
def afterVerb (article : Bool) (r : List Char) : Option (List Char × List Char) :=
  let sp := r.takeWhile isPySpace
  if sp.isEmpty then none
  else
    let r2 := r.drop sp.length
    if article then matchArticle r2 else grabWord r2

/-- First success over a list (regex alternation: alternatives are tried left
to right, and a later alternative is tried when the earlier one fails anywhere
downstream). -/
def firstSome {α β : Type} (f : α → Option β) : List α → Option β
  | [] => none
  | a :: r =>
    match f a with
    | some b => some b
    | none => firstSome f r

/-- One verb pattern: alternation over the verb literals with the common shape
(`verbs`, and whether the `(?:a|an)?\s*` article group is present). -/
structure PatSpec where
  verbs : List (List Char)
  article : Bool

/-- After the first capture: `\s+(?:v1|v2)` then the rest of the pattern. -/
def matchVerbTail (pat : PatSpec) (afterG1 : List Char) : Option (List Char × List Char) :=
  let sp := afterG1.takeWhile isPySpace
  if sp.isEmpty then none
  else
    let r := afterG1.drop sp.length
    firstSome (fun v => if ciPrefixOf v r then afterVerb pat.article (r.drop v.length) else none)
      pat.verbs

/-- Try to match a whole pattern starting exactly at the head of `t`;
returns both captures and the remainder after the match. -/
def matchAt (pat : PatSpec) (t : List Char) : Option (List Char × List Char × List Char) :=
  match grabWord t with
  | none => none
  | some (g1, r1) =>
    match matchVerbTail pat r1 with
    | none => none
    | some (g2, rest) => some (g1, g2, rest)

/-- `re.finditer`: scan left to right; on a match, emit the captures and resume
after the match (non-overlapping); otherwise advance one position.  The fuel
argument only bounds the recursion and `t.length` is always sufficient, because
every step consumes at least one character. -/
def findMatchesF (pat : PatSpec) : Nat → List Char → List (List Char × List Char)
  | 0, _ => []
  | _ + 1, [] => []
  | fuel + 1, c :: rest =>
    match matchAt pat (c :: rest) with
    | some (g1, g2, after) => (g1, g2) :: findMatchesF pat fuel after
    | none => findMatchesF pat fuel rest

/-- All matches of one pattern over a text. -/
def findMatches (pat : PatSpec) (text : List Char) : List (List Char × List Char) :=
  findMatchesF pat text.length text

/-- A `(subject, predicate, object)` triple. -/
abbrev T3 := List Char × List Char × List Char

/-- The service variant picks the canonical predicate by substring tests on the
pattern's *source string* (services/hybrid_rag_simple.py, lines 77-90):
`relation = "RELATES_TO"` then an `if`/`elif` chain over
`"has"/"have"`, `"uses"/"use"`, `"provides"/"provide"`, `"includes"/"include"`,
`"supports"/"support"`, `"is"/"are"` membership in the pattern text. -/
def relationForPattern (pattern : List Char) : List Char :=
  if isSubOf ( "has".toList) pattern || isSubOf ( "have".toList) pattern then "HAS".toList
  else if isSubOf ( "uses".toList) pattern || isSubOf ( "use".toList) pattern then "USES".toList
  else if isSubOf ( "provides".toList) pattern || isSubOf ( "provide".toList) pattern then "PROVIDES".toList
  else if isSubOf ( "includes".toList) pattern || isSubOf ( "include".toList) pattern then "INCLUDES".toList
  else if isSubOf ( "supports".toList) pattern || isSubOf ( "support".toList) pattern then "SUPPORTS".toList
  else if isSubOf ( "is".toList) pattern || isSubOf ( "are".toList) pattern then "IS_A".toList
  else "RELATES_TO".toList

/-- The six patterns of `_extract_relationships_simple`, each with its source
string (used only for the predicate lookup above) and its matcher shape. -/
def svcPatterns : List (List Char × PatSpec) :=
  [ ( r"(\w+)\s+(?:is|are)\s+(?:a|an)?\s*(\w+)".toList,
      ⟨[ "is".toList, "are".toList], true⟩),
    ( r"(\w+)\s+(?:has|have)\s+(\w+)".toList,
      ⟨[ "has".toList, "have".toList], false⟩),
    ( r"(\w+)\s+(?:uses|use)\s+(\w+)".toList,
      ⟨[ "uses".toList, "use".toList], false⟩),
    ( r"(\w+)\s+(?:provides|provide)\s+(\w+)".toList,
      ⟨[ "provides".toList, "provide".toList], false⟩),
    ( r"(\w+)\s+(?:includes|include)\s+(\w+)".toList,
      ⟨[ "includes".toList, "include".toList], false⟩),
    ( r"(\w+)\s+(?:supports|support)\s+(\w+)".toList,
      ⟨[ "supports".toList, "support".toList], false⟩) ]

/-- Triples contributed by one pattern: each match's captures are stripped
(`match.group(i).strip()` — a no-op on `\w+` captures) and kept only when both
entities are longer than 2 characters. -/
def triplesOfPattern (relation : List Char) (pat : PatSpec) (text : List Char) : List T3 :=
  (findMatches pat text).foldl
    (fun acc m =>
      let e1 := pyStrip m.fst
      let e2 := pyStrip m.snd
      if 2 < e1.length ∧ 2 < e2.length then acc ++ [(e1, relation, e2)] else acc)
    []

/-- `SimpleHybridRAGService._extract_relationships_simple`. -/
def extractRelationshipsSimple (text : List Char) : List T3 :=
  svcPatterns.foldl
    (fun rels pp => rels ++ triplesOfPattern (relationForPattern pp.fst) pp.snd text) []

/-- The standalone variant's pattern table carries the canonical predicate
literally (standalone_hybrid_rag.py, lines 84-91). -/
def standalonePatterns : List (PatSpec × List Char) :=
  [ (⟨[ "is".toList, "are".toList], true⟩, "IS_A".toList),
    (⟨[ "has".toList, "have".toList], false⟩, "HAS".toList),
    (⟨[ "uses".toList, "use".toList], false⟩, "USES".toList),
    (⟨[ "provides".toList, "provide".toList], false⟩, "PROVIDES".toList),
    (⟨[ "includes".toList, "include".toList], false⟩, "INCLUDES".toList),
    (⟨[ "supports".toList, "support".toList], false⟩, "SUPPORTS".toList) ]

/-- `SimpleHybridRAG.extract_relationships` in the standalone app. -/
def extractRelationshipsStandalone (text : List Char) : List T3 :=
  standalonePatterns.foldl
    (fun rels pp => rels ++ triplesOfPattern pp.snd pp.fst text) []

/-!  ## Query router (keyword-heuristic policy)

`SimpleHybridRAGService._route_query` (services/hybrid_rag_simple.py, lines
143-170) and `SimpleHybridRAG.route_query` (standalone_hybrid_rag.py, lines
103-118): scan the lower-cased question for graph indicators first, then for
vector indicators, defaulting to `"vector"`. -/

def graphKeywordsService : List (List Char) :=
  [ "how does".toList, "relate".toList, "relationship".toList, "connection".toList,
    "connected".toList, "links".toList, "associated".toList, "depends".toList,
    "uses".toList, "has".toList, "includes".toList]

def vectorKeywordsService : List (List Char) :=
  [ "what is".toList, "define".toList, "explain".toList, "describe".toList,
    "meaning".toList, "overview".toList, "summary".toList, "about".toList]

def routeQueryService (question : List Char) : List Char :=
  let ql := pyLower question
  if graphKeywordsService.any (fun k => isSubOf k ql) then "graph".toList
  else if vectorKeywordsService.any (fun k => isSubOf k ql) then "vector".toList
  else "vector".toList

def graphKeywordsStandalone : List (List Char) :=
  [ "how does".toList, "relate".toList, "relationship".toList, "connection".toList,
    "uses".toList, "has".toList]

def vectorKeywordsStandalone : List (List Char) :=
  [ "what is".toList, "define".toList, "explain".toList, "describe".toList, "about".toList]

def routeQueryStandalone (question : List Char) : List Char :=
  let ql := pyLower question
  if graphKeywordsStandalone.any (fun k => isSubOf k ql) then "graph".toList
  else if vectorKeywordsStandalone.any (fun k => isSubOf k ql) then "vector".toList
  else "vector".toList

/-!  ## Searches and the query envelope

The provenance entries placed in the `sources` list have four shapes across
the two implementations. -/

inductive SrcEntry where
  | chromadb (chunkIds : List (List Char))
  | knowledgeGraph (relationships : Nat)
  | vectorType (chunks : Nat)
  | graphType (relationships : Nat)
deriving DecidableEq

structure SearchOut where
  answer : List Char
  sources : List SrcEntry
deriving DecidableEq

/-- One formatted record of `query_embedding` (services/vector_service.py,
lines 27-46).  The `distance` field (a float, never consulted by any caller)
is omitted. -/
structure QueryRec where
  id : List Char
  text : List Char
  metaSource : List Char
  metaChunkId : Nat
deriving DecidableEq

/-- The raw answer of `collection.query` (external ChromaDB), already indexed
at `[0]` for the single query text: parallel lists of ids, documents and
metadata. -/
structure ChromaRaw where
  ids : List (List Char)
  documents : List (List Char)
  metaSources : List (List Char)
  metaChunkIds : List Nat
deriving DecidableEq

/-- `query_embedding` (services/vector_service.py): the loop
`for i in range(len(results["ids"][0]))` reshapes the raw columns into a
*list* of per-hit records. -/
def queryEmbedding (raw : ChromaRaw) : List QueryRec :=
  (List.range raw.ids.length).map
    (fun i => ⟨raw.ids.getD i [], raw.documents.getD i [],
               raw.metaSources.getD i [], raw.metaChunkIds.getD i 0⟩)

/-- `SimpleHybridRAGService._vector_search` (services/hybrid_rag_simple.py,
lines 172-211).  `collectionQuery` is the external ChromaDB collection; the
call `query_embedding(question, n_results=3)` requests the top 3 hits and
returns the *list* built by `queryEmbedding`.  The subsequent line
`if not results or not results.get('documents')` short-circuits on an empty
list; on a non-empty list the attribute access `results.get` raises
`AttributeError` (a Python `list` has no `get` method), which the enclosing
`except` turns into the `"Vector search error: ..."` answer — the generator
branch below that line is unreachable, so this embedding takes no generator
parameter. -/
def vectorSearchService (collectionOk : Bool) (collectionQuery : List Char → Nat → ChromaRaw)
    (question : List Char) : SearchOut :=
  if !collectionOk then ⟨ "ChromaDB not available".toList, []⟩
  else
    let results := queryEmbedding (collectionQuery question 3)
    if results.isEmpty then ⟨ "No relevant information found".toList, []⟩
    else ⟨ "Vector search error: \x27list\x27 object has no attribute \x27get\x27".toList, []⟩

/-- The bullet line `f"• {entity1} {relation.replace('_', ' ').lower()} {entity2}"`. -/
def fmtRel (tr : T3) : List Char :=
  "• ".toList ++ tr.fst ++ (' ' :: []) ++
    pyLower (tr.snd.fst.map (fun c => if c = '_' then ' ' else c)) ++ (' ' :: []) ++ tr.snd.snd

/-- The graph-search prompt of `SimpleHybridRAGService._graph_search`. -/
def graphPromptService (relationshipText question : List Char) : List Char :=
  "\nBased on the following relationships, answer the question:\n\nRelationships:\n".toList ++
    relationshipText ++ "\n\nQuestion: ".toList ++ question ++
    "\n\nProvide a clear, concise answer based on these relationships:\n".toList

/-- `SimpleHybridRAGService._graph_search` (services/hybrid_rag_simple.py,
lines 213-261).  `relationships` is `none` when `ingest_data` has never run
(`hasattr(self, 'relationships')` is false).  The generator is a parameter
returning `Except` (it may raise); a raised error is caught by the enclosing
`except` and rendered as the `"Graph search error: ..."` answer.
`question_words` is a Python set used only for membership tests, so the
duplicate-free list returned by `splitWS` is consulted directly;
`word in entity.lower()` is a substring test. -/
def graphSearchService (relationships : Option (List T3)) (modelConfigured : Bool)
    (gen : List Char → Except (List Char) (List Char)) (question : List Char) : SearchOut :=
  match relationships with
  | none => ⟨ "No relationships available".toList, []⟩
  | some rels =>
    let questionWords := splitWS (pyLower question)
    let relevant := rels.filter
      (fun tr => questionWords.any (fun w => isSubOf w (pyLower tr.fst)) ||
                 questionWords.any (fun w => isSubOf w (pyLower tr.snd.snd)))
    if relevant.isEmpty then ⟨ "No relevant relationships found".toList, []⟩
    else
      let relationshipText := joinSep ('\n' :: []) ((relevant.take 5).map fmtRel)
      if modelConfigured then
        match gen (graphPromptService relationshipText question) with
        | Except.ok t => ⟨t, [SrcEntry.knowledgeGraph relevant.length]⟩
        | Except.error e => ⟨ "Graph search error: ".toList ++ e, []⟩
      else
        ⟨ "Based on the relationships:\n".toList ++ relationshipText,
          [SrcEntry.knowledgeGraph relevant.length]⟩

/-- The envelope returned by the query entry points. -/
structure QueryEnvelope where
  status : List Char
  answer : List Char
  search_method : List Char
  sources : List SrcEntry
deriving DecidableEq

/-- `SimpleHybridRAGService.query` (services/hybrid_rag_simple.py, lines
263-287): route, dispatch, and wrap in a `status="success"` envelope.  The
surrounding `try` never fires: both search helpers catch their own
exceptions (they are total functions here). -/
def queryService (collectionOk : Bool) (collectionQuery : List Char → Nat → ChromaRaw)
    (relationships : Option (List T3)) (modelConfigured : Bool)
    (gen : List Char → Except (List Char) (List Char)) (question : List Char) : QueryEnvelope :=
  let method := routeQueryService question
  let result :=
    if method = "vector".toList then vectorSearchService collectionOk collectionQuery question
    else graphSearchService relationships modelConfigured gen question
  ⟨ "success".toList, result.answer, method, result.sources⟩

/-!  ## Standalone searches and `/query` endpoint -/

/-- Strict lexicographic comparison of `List Char` by code point (Python `str <`). -/
def strLtB : List Char → List Char → Bool
  | [], [] => false
  | [], _ :: _ => true
  | _ :: _, [] => false
  | a :: as', b :: bs =>
    if a.toNat < b.toNat then true
    else if b.toNat < a.toNat then false
    else strLtB as' bs

/-- Python `<` on the `(score, chunk, i)` tuples of `vector_search`
(lexicographic; the index component makes ties impossible). -/
def tupLtB (x y : Nat × List Char × Nat) : Bool :=
  if x.fst < y.fst then true
  else if y.fst < x.fst then false
  else if strLtB x.snd.fst y.snd.fst then true
  else if strLtB y.snd.fst x.snd.fst then false
  else x.snd.snd < y.snd.snd

/-- Insertion step for `scored_chunks.sort(reverse=True)`. -/
def insertDesc (x : Nat × List Char × Nat) : List (Nat × List Char × Nat) → List (Nat × List Char × Nat)
  | [] => [x]
  | y :: r => if tupLtB x y then y :: insertDesc x r else x :: y :: r

/-- `scored_chunks.sort(reverse=True)`: descending lexicographic order on the
tuples; stability is irrelevant because the third component is a distinct index. -/
def sortDesc (l : List (Nat × List Char × Nat)) : List (Nat × List Char × Nat) :=
  l.foldr insertDesc []

/-- The vector-search prompt of the standalone `vector_search`. -/
def vsPromptStandalone (context question : List Char) : List Char :=
  "\nBased on the following context, answer the question concisely:\n\nContext:\n".toList ++
    context ++ "\n\nQuestion: ".toList ++ question ++ "\n\nAnswer:\n".toList

/-- `SimpleHybridRAG.vector_search` (standalone_hybrid_rag.py, lines 120-162):
score every stored chunk by the number of distinct question words appearing in
it (`len(question_words.intersection(chunk_words))`), keep positive scores,
sort descending, join the top 3 chunks with blank lines, and answer either via
the generator (its failure caught and rendered as
`"Error generating response: ..."`) or via the deterministic fallback. -/
def vectorSearchStandalone (chunksStore : List (List Char)) (modelConfigured : Bool)
    (gen : List Char → Except (List Char) (List Char)) (question : List Char) : SearchOut :=
  if chunksStore.isEmpty then ⟨ "No data ingested yet".toList, []⟩
  else
    let questionWords := splitWS (pyLower question)
    let scored := chunksStore.enum.foldl
      (fun acc ic =>
        let chunkWords := splitWS (pyLower ic.snd)
        let score := questionWords.dedup.countP (fun w => w ∈ chunkWords)
        if 0 < score then acc ++ [(score, ic.snd, ic.fst)] else acc)
      []
    if scored.isEmpty then ⟨ "No relevant information found".toList, []⟩
    else
      let top := ((sortDesc scored).take 3).map (fun x => x.snd.fst)
      let context := joinSep ( "\n\n".toList) top
      if modelConfigured then
        match gen (vsPromptStandalone context question) with
        | Except.ok t => ⟨t, [SrcEntry.vectorType top.length]⟩
        | Except.error e =>
          ⟨ "Error generating response: ".toList ++ e, [SrcEntry.vectorType top.length]⟩
      else
        ⟨ "Based on the available information: ".toList ++ context.take 300 ++ "...".toList,
          [SrcEntry.vectorType top.length]⟩

/-- The graph-search prompt of the standalone `graph_search`. -/
def graphPromptStandalone (relationshipText question : List Char) : List Char :=
  "\nBased on these relationships, answer the question:\n\nRelationships:\n".toList ++
    relationshipText ++ "\n\nQuestion: ".toList ++ question ++ "\n\nAnswer:\n".toList

/-- `SimpleHybridRAG.graph_search` (standalone_hybrid_rag.py, lines 164-204). -/
def graphSearchStandalone (relationshipsStore : List T3) (modelConfigured : Bool)
    (gen : List Char → Except (List Char) (List Char)) (question : List Char) : SearchOut :=
  if relationshipsStore.isEmpty then ⟨ "No relationships available".toList, []⟩
  else
    let questionWords := splitWS (pyLower question)
    let relevant := relationshipsStore.filter
      (fun tr => questionWords.any (fun w => isSubOf w (pyLower tr.fst)) ||
                 questionWords.any (fun w => isSubOf w (pyLower tr.snd.snd)))
    if relevant.isEmpty then ⟨ "No relevant relationships found".toList, []⟩
    else
      let relationshipText := joinSep ('\n' :: []) ((relevant.take 5).map fmtRel)
      if modelConfigured then
        match gen (graphPromptStandalone relationshipText question) with
        | Except.ok t => ⟨t, [SrcEntry.graphType relevant.length]⟩
        | Except.error e => ⟨ "Error generating response: ".toList ++ e, [SrcEntry.graphType relevant.length]⟩
      else
        ⟨ "Based on the relationships:\n".toList ++ relationshipText,
          [SrcEntry.graphType relevant.length]⟩

/-- An HTTP error raised across the standalone endpoint boundary. -/
structure HTTPError where
  statusCode : Nat
  detail : List Char
deriving DecidableEq

/-- `query_rag`, the standalone `/query` endpoint (standalone_hybrid_rag.py,
lines 261-287).  With an empty `chunks_store` it raises
`HTTPException(400, "No data ingested. Please call /ingest first.")`; that
exception is caught by the endpoint's own `except Exception` clause and
re-raised as `HTTPException(500, f"Query failed: {str(e)}")`, so the caller
receives an HTTP error, not a response envelope. -/
def queryRag (chunksStore : List (List Char)) (relationshipsStore : List T3)
    (modelConfigured : Bool) (gen : List Char → Except (List Char) (List Char))
    (question : List Char) : Except HTTPError QueryEnvelope :=
  if chunksStore.isEmpty then
    Except.error ⟨500, "Query failed: 400: No data ingested. Please call /ingest first.".toList⟩
  else
    let method := routeQueryStandalone question
    let result :=
      if method = "vector".toList then vectorSearchStandalone chunksStore modelConfigured gen question
      else graphSearchStandalone relationshipsStore modelConfigured gen question
    Except.ok ⟨ "success".toList, result.answer, method, result.sources⟩

/-!  ## Triple persistence with merge semantics

`HybridRAGService._store_triples_in_neo4j` (services/hybrid_rag_service.py,
lines 298-320): normalise each triple's parts, skip triples with an empty
part, and issue `MERGE (h:Entity {name})`, `MERGE (t:Entity {name})`,
`MERGE (h)-[:REL]->(t)` to Neo4j.  Neo4j is external; its `MERGE` semantics
are modelled from the spec below. -/

/-- `head.replace('"', '').replace("'", "").strip()`. -/
def normalizeEntity (s : List Char) : List Char :=
  pyStrip ((s.filter (fun c => c ≠ '"')).filter (fun c => c ≠ '\''))

/-- `relation.replace('"', '').replace("'", "").replace(' ', '_').upper().strip()`. -/
def normalizeRelation (s : List Char) : List Char :=
  pyStrip (pyUpper (((s.filter (fun c => c ≠ '"')).filter (fun c => c ≠ '\'')).map
    (fun c => if c = ' ' then '_' else c)))

/-- The relationship index: named nodes and directed predicate-labelled edges. -/
structure KGraph where
  nodes : List (List Char)
  edges : List T3
deriving DecidableEq

/-- Modelled from the spec: Neo4j `MERGE (h:Entity {name: $n})` — external to
this repository — matches an existing node of that name and creates one only
when absent ("creating the same named node twice must not duplicate it"). -/
def mergeNode (g : KGraph) (n : List Char) : KGraph :=
  if n ∈ g.nodes then g else ⟨g.nodes ++ [n], g.edges⟩

/-- Modelled from the spec: Neo4j `MERGE (h)-[:REL]->(t)` — external to this
repository — matches an existing same-direction, same-predicate edge and
creates one only when absent. -/
def mergeEdge (g : KGraph) (h r t : List Char) : KGraph :=
  if (h, r, t) ∈ g.edges then g else ⟨g.nodes, g.edges ++ [(h, r, t)]⟩

/-- The body of the `for head, relation, tail in triples` loop. -/
def storeTripleStep (g : KGraph) (tr : T3) : KGraph :=
  let head := normalizeEntity tr.fst
  let tail := normalizeEntity tr.snd.snd
  let relation := normalizeRelation tr.snd.fst
  if head ≠ [] ∧ tail ≠ [] ∧ relation ≠ [] then
    mergeEdge (mergeNode (mergeNode g head) tail) head relation tail
  else g

/-- `HybridRAGService._store_triples_in_neo4j`. -/
def storeTriplesInNeo4j (g : KGraph) (triples : List T3) : KGraph :=
  triples.foldl storeTripleStep g

/-!  ## Generative relation extraction

`HybridRAGService._extract_entities_and_relationships`
(services/hybrid_rag_service.py, lines 221-254): prompt the generator, split
its response into lines, and parse every line against
`\(([^,]+),\s*([^,]+),\s*([^)]+)\)` via `re.search`.  The whole body sits in a
`try` whose `except` returns the empty triple list. -/

/-- The extraction prompt (an f-string; `\x27` is the ASCII apostrophe). -/
def extractPrompt (text : List Char) : List Char :=
  "\nFrom the text below, extract relationships as triples (HEAD, RELATION, TAIL). \nExamples: (FastAPI, HAS_COMPONENT, routers), (routers, ENABLES, organization), (Pydantic, PROVIDES, validation).\n\nText: \x27".toList ++
    text ++
    "\x27\n\nExtract only clear, factual relationships. Format as: (entity1, relationship, entity2)\n\nTriples:\n".toList

/-- One `[^X]+` capture followed by the literal `X`, preceded by `\s*`:
take the run of non-`X` characters (it ends at the first `X` or the end); the
greedy `\s*` then forces the capture to start at the first non-whitespace
character, backtracking to a single character when the whole run is
whitespace.  Returns the capture and the remainder after the closing `X`,
or `none` when the run is empty or not followed by `X`. -/
def grabUpTo (x : Char) (r : List Char) : Option (List Char × List Char) :=
  let seg := r.takeWhile (fun c => c ≠ x)
  match r.drop seg.length with
  | [] => none
  | _ :: after =>
    if seg.isEmpty then none
    else
      match seg.dropWhile isPySpace with
      | [] =>
        match seg.reverse with
        | [] => none
        | lastc :: _ => some ((lastc :: []), after)
      | g => some (g, after)

/-- Match `\(([^,]+),\s*([^,]+),\s*([^)]+)\)` at the head of `r` (the first
capture has no preceding `\s*`, so it keeps leading whitespace). -/
def matchTripleHere (r : List Char) : Option T3 :=
  match r with
  | '(' :: r1 =>
    let seg1 := r1.takeWhile (fun c => c ≠ ',')
    match r1.drop seg1.length with
    | [] => none
    | _ :: r2 =>
      if seg1.isEmpty then none
      else
        match grabUpTo ',' r2 with
        | none => none
        | some (g2, r3) =>
          match grabUpTo ')' r3 with
          | none => none
          | some (g3, _) => some (pyStrip seg1, pyStrip g2, pyStrip g3)
  | _ => none

/-- `re.search` of the triple pattern in one line: leftmost match (positions
are tried left to right; only a literal `(` can start a match). -/
def parseTripleLine : List Char → Option T3
  | [] => none
  | c :: rest =>
    match matchTripleHere (c :: rest) with
    | some t => some t
    | none => parseTripleLine rest

/-- `_extract_entities_and_relationships`: the generator may raise (the
`Except.error` case), in which case the enclosing `except` logs and returns
`[]`; otherwise every line of the response is parsed and matching lines are
appended in order (the parsing itself cannot raise). -/
def extractEntitiesAndRelationships (llm : List Char → Except (List Char) (List Char))
    (text : List Char) : List T3 :=
  match llm (extractPrompt text) with
  | Except.error _ => []
  | Except.ok response =>
    (splitOn1 '\n' response).foldl
      (fun ts line =>
        match parseTripleLine line with
        | some t => ts ++ [t]
        | none => ts)
      []

/-- The per-chunk accumulation loop of `HybridRAGService.ingest_data`
(lines 275-279): `all_triples.extend(self._extract_entities_and_relationships(chunk))`. -/
def allTriples (llm : List Char → Except (List Char) (List Char))
    (chunks : List (List Char)) : List T3 :=
  chunks.foldl (fun acc ch => acc ++ extractEntitiesAndRelationships llm ch) []

/-- The presence of (the normalisation of) a triple in a graph. -/
def triplePresent (g : KGraph) (tr : T3) : Prop :=
  normalizeEntity tr.fst ∈ g.nodes ∧ normalizeEntity tr.snd.snd ∈ g.nodes ∧
    (normalizeEntity tr.fst, normalizeRelation tr.snd.fst, normalizeEntity tr.snd.snd) ∈ g.edges

/-- A triple skipped by the `if head and tail and relation` guard. -/
def tripleInvalid (tr : T3) : Prop :=
  ¬(normalizeEntity tr.fst ≠ [] ∧ normalizeEntity tr.snd.snd ≠ [] ∧
    normalizeRelation tr.snd.fst ≠ [])

/-- A generator stand-in for states where `self.model is None`; never invoked
on the paths under study. -/
def genNone : List Char → Except (List Char) (List Char) :=
  fun _ => Except.error ( "model not configured".toList)

/-- An external collection with no stored chunks: `collection.query` answers
with empty columns, so `query_embedding` returns the empty list. -/
def cqEmpty : List Char → Nat → ChromaRaw := fun _ _ => ⟨[], [], [], []⟩

/-- An external collection holding one chunk, answering every query with that
single hit. -/
def cqOne : List Char → Nat → ChromaRaw :=
  fun _ _ => ⟨[ "chunk_0".toList], [ "FastAPI is a modern web framework.".toList],
              [ "data.txt".toList], [0]⟩

/-- A generator that raises exactly on the extraction prompt for the chunk
`"bad chunk"` and answers every other prompt with one well-formed triple line. -/
def llmFailOnBad : List Char → Except (List Char) (List Char) :=
  fun p =>
    if p = extractPrompt ( "bad chunk".toList) then Except.error ( "LLM unavailable".toList)
    else Except.ok ( "(FastAPI, HAS_COMPONENT, routers)".toList)

/-!  ## Helper lemmas -/

theorem mem_dropWhile_of_mem {α : Type} {p : α → Bool} {a : α} :
    ∀ {l : List α}, a ∈ l → p a = false → a ∈ l.dropWhile p := by
  intro l
  induction l with
  | nil => intro ha _; cases ha
  | cons b t ih =>
    intro ha hp
    rw [List.dropWhile_cons]
    by_cases hb : p b = true
    · simp only [hb, if_true]
      rcases List.mem_cons.mp ha with h1 | h2
      · subst h1; rw [hp] at hb; cases hb
      · exact ih h2 hp
    · simp only [hb, if_false]
      exact ha

theorem mem_pyStrip_of_mem {c : Char} {l : List Char} (h : c ∈ l)
    (hc : isPySpace c = false) : c ∈ pyStrip l := by
  unfold pyStrip
  rw [List.mem_reverse]
  exact mem_dropWhile_of_mem (List.mem_reverse.mpr (mem_dropWhile_of_mem h hc)) hc

theorem mem_of_mem_pyStrip {c : Char} {l : List Char} (h : c ∈ pyStrip l) : c ∈ l := by
  unfold pyStrip at h
  rw [List.mem_reverse] at h
  have h1 := (List.dropWhile_suffix isPySpace).subset h
  rw [List.mem_reverse] at h1
  exact (List.dropWhile_suffix isPySpace).subset h1

theorem length_pyStrip_le (l : List Char) : (pyStrip l).length ≤ l.length := by
  unfold pyStrip
  calc ((l.dropWhile isPySpace).reverse.dropWhile isPySpace).reverse.length
      = ((l.dropWhile isPySpace).reverse.dropWhile isPySpace).length := List.length_reverse _
    _ ≤ (l.dropWhile isPySpace).reverse.length := (List.dropWhile_suffix isPySpace).length_le
    _ = (l.dropWhile isPySpace).length := List.length_reverse _
    _ ≤ l.length := (List.dropWhile_suffix isPySpace).length_le

theorem mem_flatten_splitSep2 (a b : Char) {c : Char} :
    ∀ {l : List Char}, c ∈ l → c ∈ (splitSep2 a b l).flatten ∨ c = a ∨ c = b := by
  intro l
  induction l using splitSep2.induct a b with
  | case1 => intro h; cases h
  | case2 d =>
    intro h
    rcases List.mem_singleton.mp h with h1
    subst h1
    left; simp [splitSep2]
  | case3 d e rest hde ih =>
    intro h
    rw [splitSep2, if_pos hde]
    rcases List.mem_cons.mp h with h1 | h2
    · right; left; rw [h1, hde.1]
    · rcases List.mem_cons.mp h2 with h3 | h4
      · right; right; rw [h3, hde.2]
      · rcases ih h4 with hm | hab
        · left; simpa using hm
        · right; exact hab
  | case4 d e rest hde hsp ih =>
    intro h
    rw [splitSep2, if_neg hde, hsp]
    rcases List.mem_cons.mp h with h1 | h2
    · subst h1; left; simp
    · rcases ih h2 with hm | hab
      · rw [hsp] at hm; simp at hm
      · right; exact hab
  | case5 d e rest hde t ts hsp ih =>
    intro h
    rw [splitSep2, if_neg hde, hsp]
    rcases List.mem_cons.mp h with h1 | h2
    · subst h1; left; simp
    · rcases ih h2 with hm | hab
      · left
        rw [hsp] at hm
        simp only [List.flatten_cons, List.mem_append] at hm ⊢
        rcases hm with hm1 | hm2
        · left; exact List.mem_cons_of_mem _ hm1
        · right; exact hm2
      · right; exact hab

theorem foldl_append_flatMap {α β : Type} (f : α → List β) :
    ∀ (l : List α) (acc : List β),
      l.foldl (fun a p => a ++ f p) acc = acc ++ l.flatMap f := by
  intro l
  induction l with
  | nil => intro acc; simp
  | cons h t ih => intro acc; simp [List.foldl_cons, ih, List.flatMap_cons]

theorem packLoop_cover (packT : Nat) (c : Char) (hc : isPySpace c = false) :
    ∀ (sents : List (List Char)) (cur : List Char) (acc : List (List Char)),
      (c ∈ acc.flatten ∨ c ∈ cur ∨ c ∈ sents.flatten) →
      c ∈ (packLoop packT sents cur acc).flatten := by
  intro sents
  induction sents with
  | nil =>
    intro cur acc h
    rcases h with h | h | h
    · by_cases hcur : cur.isEmpty <;> simp [packLoop, hcur, h]
    · have hne : cur.isEmpty = false := by
        cases cur with
        | nil => cases h
        | cons x t => rfl
      simp only [packLoop, hne, Bool.false_eq_true, if_false]
      simp only [List.flatten_append, List.mem_append]
      right
      simp only [List.flatten_cons, List.flatten_nil, List.append_nil]
      exact mem_pyStrip_of_mem h hc
    · simp at h
  | cons s rest ih =>
    intro cur acc h
    simp only [List.flatten_cons, List.mem_append] at h
    by_cases hlen : (cur ++ s).length < packT
    · simp only [packLoop, hlen, if_true]
      apply ih
      rcases h with h | h | h
      · exact Or.inl h
      · right; left; simp [h]
      · rcases h with h | h
        · right; left; simp [h]
        · right; right; exact h
    · simp only [packLoop, hlen, if_false]
      by_cases hcur : cur.isEmpty
      · simp only [hcur, if_true]
        apply ih
        rcases h with h | h | h
        · exact Or.inl h
        · rw [List.isEmpty_iff.mp hcur] at h; cases h
        · rcases h with h | h
          · right; left; simp [h]
          · right; right; exact h
      · simp only [hcur, Bool.false_eq_true, if_false]
        apply ih
        rcases h with h | h | h
        · left; simp [h]
        · left
          simp only [List.flatten_append, List.mem_append]
          right
          simp only [List.flatten_cons, List.flatten_nil, List.append_nil]
          exact mem_pyStrip_of_mem h hc
        · rcases h with h | h
          · right; left; simp [h]
          · right; right; exact h

theorem packLoop_dot (packT : Nat) :
    ∀ (sents : List (List Char)) (cur : List Char) (acc : List (List Char)),
      ('.' ∈ cur ∨ sents ≠ []) → '.' ∈ (packLoop packT sents cur acc).flatten := by
  intro sents
  induction sents with
  | nil =>
    intro cur acc h
    rcases h with h | h
    · have hne : cur.isEmpty = false := by
        cases cur with
        | nil => cases h
        | cons x t => rfl
      simp only [packLoop, hne, Bool.false_eq_true, if_false]
      simp only [List.flatten_append, List.mem_append]
      right
      simp only [List.flatten_cons, List.flatten_nil, List.append_nil]
      exact mem_pyStrip_of_mem h (by decide)
    · exact absurd rfl h
  | cons s rest ih =>
    intro cur acc h
    by_cases hlen : (cur ++ s).length < packT
    · simp only [packLoop, hlen, if_true]
      apply ih
      left; simp
    · simp only [packLoop, hlen, if_false]
      by_cases hcur : cur.isEmpty
      · simp only [hcur, if_true]
        apply ih
        left; simp
      · simp only [hcur, Bool.false_eq_true, if_false]
        apply ih
        left; simp

theorem packLoop_chunks (packT : Nat) (allS : List (List Char)) :
    ∀ (sents : List (List Char)) (cur : List Char) (acc : List (List Char)),
      (∀ s ∈ sents, s ∈ allS) →
      (cur.length ≤ packT + 1 ∨ ∃ s ∈ allS, cur = s ++ ('.' :: ' ' :: [])) →
      (∀ ch ∈ acc, ch.length ≤ packT + 1 ∨ ∃ s ∈ allS, ch = pyStrip (s ++ ('.' :: ' ' :: []))) →
      ∀ ch ∈ packLoop packT sents cur acc,
        ch.length ≤ packT + 1 ∨ ∃ s ∈ allS, ch = pyStrip (s ++ ('.' :: ' ' :: [])) := by
  intro sents
  induction sents with
  | nil =>
    intro cur acc _ hcur hacc ch hch
    by_cases he : cur.isEmpty
    · simp only [packLoop, he, if_true] at hch
      exact hacc ch hch
    · simp only [packLoop, he, Bool.false_eq_true, if_false] at hch
      rcases List.mem_append.mp hch with h | h
      · exact hacc ch h
      · rcases List.mem_singleton.mp h with h1
        subst h1
        rcases hcur with h2 | ⟨s, hs, h2⟩
        · exact Or.inl (le_trans (length_pyStrip_le cur) h2)
        · exact Or.inr ⟨s, hs, by rw [h2]⟩
  | cons s rest ih =>
    intro cur acc hsent hcur hacc ch hch
    have hsrest : ∀ x ∈ rest, x ∈ allS := fun x hx => hsent x (List.mem_cons_of_mem _ hx)
    have hsmem : s ∈ allS := hsent s (List.mem_cons_self s rest)
    by_cases hlen : (cur ++ s).length < packT
    · simp only [packLoop, hlen, if_true] at hch
      refine ih _ _ hsrest (Or.inl ?_) hacc ch hch
      have : (cur ++ s ++ ('.' :: ' ' :: [])).length = (cur ++ s).length + 2 := by
        simp [List.length_append]; omega
      omega
    · simp only [packLoop, hlen, if_false] at hch
      by_cases hcure : cur.isEmpty
      · simp only [hcure, if_true] at hch
        exact ih _ _ hsrest (Or.inr ⟨s, hsmem, rfl⟩) hacc ch hch
      · simp only [hcure, Bool.false_eq_true, if_false] at hch
        refine ih _ _ hsrest (Or.inr ⟨s, hsmem, rfl⟩) ?_ ch hch
        intro x hx
        rcases List.mem_append.mp hx with h | h
        · exact hacc x h
        · rcases List.mem_singleton.mp h with h1
          subst h1
          rcases hcur with h2 | ⟨s', hs', h2⟩
          · exact Or.inl (le_trans (length_pyStrip_le cur) (le_trans h2 (le_refl _)))
          · exact Or.inr ⟨s', hs', by rw [h2]⟩

theorem slideGo_cover (size stride : Nat) (hstride : 1 ≤ stride) (hss : stride ≤ size) :
    ∀ (fuel : Nat) (text : List Char), text.length ≤ fuel →
      ∀ c ∈ text, c ∈ (slideGo size stride fuel text).flatten := by
  intro fuel
  induction fuel with
  | zero =>
    intro text hlen c hc
    cases text with
    | nil => cases hc
    | cons x t => simp at hlen
  | succ n ih =>
    intro text hlen c hc
    cases text with
    | nil => cases hc
    | cons x t =>
      simp only [slideGo]
      by_cases hsz : (x :: t).length ≤ size
      · simp only [hsz, if_true]
        have : c ∈ (x :: t).take size := by
          rw [List.take_of_length_le hsz]
          exact hc
        simpa using this
      · simp only [hsz, if_false]
        simp only [List.flatten_cons, List.mem_append]
        rcases List.mem_append.mp ((List.take_append_drop size (x :: t)) ▸ hc) with h | h
        · exact Or.inl h
        · right
          apply ih
          · have hlt : stride ≤ (x :: t).length := by
              have : size < (x :: t).length := Nat.lt_of_not_le hsz
              omega
            have : ((x :: t).drop stride).length = (x :: t).length - stride := by
              simp
            simp only [this]
            have hl : (x :: t).length ≤ n + 1 := hlen
            omega
          · have : (x :: t).drop size = ((x :: t).drop stride).drop (size - stride) := by
              rw [List.drop_drop]
              congr 1
              omega
            rw [this] at h
            exact List.mem_of_mem_drop h

theorem chunkTextP_eq_flatMap (maxP packT : Nat) (text : List Char) :
    chunkTextP maxP packT text =
      (splitSep2 '\n' '\n' text).flatMap (processPara maxP packT) := by
  unfold chunkTextP
  simpa using foldl_append_flatMap (processPara maxP packT) (splitSep2 '\n' '\n' text) []

theorem mem_chunkTextP {maxP packT : Nat} {text ch : List Char}
    (h : ch ∈ chunkTextP maxP packT text) :
    ∃ p ∈ splitSep2 '\n' '\n' text, ch ∈ processPara maxP packT p := by
  rw [chunkTextP_eq_flatMap] at h
  exact List.mem_flatMap.mp h

theorem routeQueryService_graph_or_vector (q : List Char) :
    routeQueryService q = "graph".toList ∨ routeQueryService q = "vector".toList := by
  unfold routeQueryService
  by_cases h1 : graphKeywordsService.any (fun k => isSubOf k (pyLower q)) = true
  · left; simp [h1]
  · right
    simp only [Bool.not_eq_true] at h1
    by_cases h2 : vectorKeywordsService.any (fun k => isSubOf k (pyLower q)) = true <;>
      simp [h1, h2]

theorem routeQueryStandalone_graph_or_vector (q : List Char) :
    routeQueryStandalone q = "graph".toList ∨ routeQueryStandalone q = "vector".toList := by
  unfold routeQueryStandalone
  by_cases h1 : graphKeywordsStandalone.any (fun k => isSubOf k (pyLower q)) = true
  · left; simp [h1]
  · right
    simp only [Bool.not_eq_true] at h1
    by_cases h2 : vectorKeywordsStandalone.any (fun k => isSubOf k (pyLower q)) = true <;>
      simp [h1, h2]

theorem isWordChar_not_space {c : Char} (h : isWordChar c = true) : isPySpace c = false := by
  by_contra hc
  have hsp : isPySpace c = true := by
    cases hx : isPySpace c
    · exact absurd hx hc
    · rfl
  unfold isPySpace at hsp
  unfold isWordChar at h
  rcases Bool.or_eq_true_iff.mp hsp with h1 | h1
  · rcases Bool.or_eq_true_iff.mp h1 with h2 | h2
    · rcases Bool.or_eq_true_iff.mp h2 with h3 | h3
      · rcases Bool.or_eq_true_iff.mp h3 with h4 | h4
        · rcases Bool.or_eq_true_iff.mp h4 with h5 | h5 <;>
            · have := decide_eq_true_eq.mp h5; subst this; simp at h
        · have := decide_eq_true_eq.mp h4; subst this; simp at h
      · have := decide_eq_true_eq.mp h3; subst this; simp at h
    · have := decide_eq_true_eq.mp h2; subst this; simp at h
  · have := decide_eq_true_eq.mp h1; subst this; simp at h

theorem grabWord_all_word {r g rest : List Char} (h : grabWord r = some (g, rest)) :
    ∀ c ∈ g, isWordChar c = true := by
  unfold grabWord at h
  by_cases he : (r.takeWhile isWordChar).isEmpty
  · simp [he] at h
  · simp only [he, Bool.false_eq_true, if_false, Option.some.injEq, Prod.mk.injEq] at h
    intro c hc
    rw [← h.1] at hc
    exact List.mem_takeWhile_imp hc

theorem grabAfterArticle_all_word {r g rest : List Char}
    (h : grabAfterArticle r = some (g, rest)) : ∀ c ∈ g, isWordChar c = true :=
  grabWord_all_word h

theorem matchArticle_all_word {r g rest : List Char}
    (h : matchArticle r = some (g, rest)) : ∀ c ∈ g, isWordChar c = true := by
  unfold matchArticle at h
  rcases ha : (if ciPrefixOf ('a' :: []) r then grabAfterArticle (r.drop 1) else none) with _ | v1
  · rw [ha] at h
    simp only [Option.none_orElse] at h
    rcases hb : (if ciPrefixOf ('a' :: 'n' :: []) r then grabAfterArticle (r.drop 2) else none) with _ | v2
    · rw [hb] at h
      simp only [Option.none_orElse] at h
      exact grabAfterArticle_all_word h
    · rw [hb] at h
      simp only [Option.some_orElse] at h
      have hv : v2 = (g, rest) := Option.some.inj h
      subst hv
      by_cases hp : ciPrefixOf ('a' :: 'n' :: []) r = true
      · rw [if_pos hp] at hb
        exact grabAfterArticle_all_word hb
      · rw [if_neg hp] at hb; cases hb
  · rw [ha] at h
    simp only [Option.some_orElse] at h
    have hv : v1 = (g, rest) := Option.some.inj h
    subst hv
    by_cases hp : ciPrefixOf ('a' :: []) r = true
    · rw [if_pos hp] at ha
      exact grabAfterArticle_all_word ha
    · rw [if_neg hp] at ha; cases ha

theorem afterVerb_all_word {article : Bool} {r g rest : List Char}
    (h : afterVerb article r = some (g, rest)) : ∀ c ∈ g, isWordChar c = true := by
  unfold afterVerb at h
  by_cases he : (r.takeWhile isPySpace).isEmpty
  · simp [he] at h
  · simp only [he, Bool.false_eq_true, if_false] at h
    cases article with
    | true => exact matchArticle_all_word h
    | false => exact grabWord_all_word h

theorem firstSome_eq_some {α β : Type} {f : α → Option β} :
    ∀ {l : List α} {b : β}, firstSome f l = some b → ∃ a ∈ l, f a = some b := by
  intro l
  induction l with
  | nil => intro b h; cases h
  | cons x t ih =>
    intro b h
    unfold firstSome at h
    rcases hx : f x with _ | v
    · rw [hx] at h
      rcases ih h with ⟨a, ha, hfa⟩
      exact ⟨a, List.mem_cons_of_mem _ ha, hfa⟩
    · rw [hx] at h
      have h2 : some v = some b := h
      have hv : v = b := Option.some.inj h2
      exact ⟨x, List.mem_cons_self x t, by rw [hx, hv]⟩

theorem matchVerbTail_all_word {pat : PatSpec} {r g rest : List Char}
    (h : matchVerbTail pat r = some (g, rest)) : ∀ c ∈ g, isWordChar c = true := by
  unfold matchVerbTail at h
  by_cases he : (r.takeWhile isPySpace).isEmpty
  · simp [he] at h
  · simp only [he, Bool.false_eq_true, if_false] at h
    rcases firstSome_eq_some h with ⟨v, _, hv⟩
    by_cases hp : ciPrefixOf v (r.drop (r.takeWhile isPySpace).length) = true
    · rw [if_pos hp] at hv
      exact afterVerb_all_word hv
    · rw [if_neg hp] at hv; cases hv

theorem matchAt_all_word {pat : PatSpec} {t g1 g2 rest : List Char}
    (h : matchAt pat t = some (g1, g2, rest)) :
    (∀ c ∈ g1, isWordChar c = true) ∧ (∀ c ∈ g2, isWordChar c = true) := by
  unfold matchAt at h
  split at h
  · cases h
  · rename_i gw rw1 hg
    split at h
    · cases h
    · rename_i gv restv hv
      obtain ⟨e1, e2, e3⟩ : gw = g1 ∧ gv = g2 ∧ restv = rest := by
        have h3 := Option.some.inj h
        injection h3 with a1 a2
        injection a2 with a2 a3
        exact ⟨a1, a2, a3⟩
      subst e1; subst e2; subst e3
      exact ⟨grabWord_all_word hg, matchVerbTail_all_word hv⟩

theorem findMatchesF_all_word {pat : PatSpec} :
    ∀ {fuel : Nat} {t : List Char} {m : List Char × List Char},
      m ∈ findMatchesF pat fuel t →
      (∀ c ∈ m.fst, isWordChar c = true) ∧ (∀ c ∈ m.snd, isWordChar c = true) := by
  intro fuel
  induction fuel with
  | zero => intro t m h; simp [findMatchesF] at h
  | succ n ih =>
    intro t m h
    cases t with
    | nil => simp [findMatchesF] at h
    | cons c rest =>
      rw [findMatchesF] at h
      rcases hm : matchAt pat (c :: rest) with _ | v
      · rw [hm] at h
        exact ih h
      · rw [hm] at h
        rcases List.mem_cons.mp h with h1 | h2
        · obtain ⟨g1, g2, after⟩ := v
          have := matchAt_all_word hm
          subst h1
          exact this
        · exact ih h2

theorem mem_foldl_cond_append {α β : Type} (g : α → β) (P : α → Prop) [DecidablePred P] {tr : β} :
    ∀ (l : List α) (init : List β),
      tr ∈ l.foldl (fun acc m => if P m then acc ++ [g m] else acc) init →
      tr ∈ init ∨ ∃ m ∈ l, P m ∧ tr = g m := by
  intro l
  induction l with
  | nil => intro init h; exact Or.inl h
  | cons x t ih =>
    intro init h
    rw [List.foldl_cons] at h
    rcases ih _ h with h1 | ⟨m, hm, hp, he⟩
    · by_cases hx : P x
      · rw [if_pos hx] at h1
        rcases List.mem_append.mp h1 with h2 | h2
        · exact Or.inl h2
        · exact Or.inr ⟨x, List.mem_cons_self x t, hx, (List.mem_singleton.mp h2)⟩
      · rw [if_neg hx] at h1
        exact Or.inl h1
    · exact Or.inr ⟨m, List.mem_cons_of_mem _ hm, hp, he⟩

theorem mem_triplesOfPattern {relation : List Char} {pat : PatSpec} {text : List Char} {tr : T3}
    (h : tr ∈ triplesOfPattern relation pat text) :
    ∃ m ∈ findMatches pat text,
      (2 < (pyStrip m.fst).length ∧ 2 < (pyStrip m.snd).length) ∧
      tr = (pyStrip m.fst, relation, pyStrip m.snd) := by
  unfold triplesOfPattern at h
  have h2 := mem_foldl_cond_append
    (fun m : List Char × List Char => (pyStrip m.fst, relation, pyStrip m.snd))
    (fun m : List Char × List Char => 2 < (pyStrip m.fst).length ∧ 2 < (pyStrip m.snd).length)
    (findMatches pat text) [] h
  rcases h2 with h3 | h3
  · cases h3
  · exact h3

theorem mem_extractRelationshipsSimple {text : List Char} {tr : T3}
    (h : tr ∈ extractRelationshipsSimple text) :
    ∃ pp ∈ svcPatterns, tr ∈ triplesOfPattern (relationForPattern pp.fst) pp.snd text := by
  unfold extractRelationshipsSimple at h
  rw [foldl_append_flatMap (fun pp => triplesOfPattern (relationForPattern pp.fst) pp.snd text)
    svcPatterns []] at h
  simp only [List.nil_append] at h
  exact List.mem_flatMap.mp h

theorem mem_extractRelationshipsStandalone {text : List Char} {tr : T3}
    (h : tr ∈ extractRelationshipsStandalone text) :
    ∃ pp ∈ standalonePatterns, tr ∈ triplesOfPattern pp.snd pp.fst text := by
  unfold extractRelationshipsStandalone at h
  rw [foldl_append_flatMap (fun pp : PatSpec × List Char => triplesOfPattern pp.snd pp.fst text)
    standalonePatterns []] at h
  simp only [List.nil_append] at h
  exact List.mem_flatMap.mp h

theorem mergeNode_node_mem (g : KGraph) (n : List Char) : n ∈ (mergeNode g n).nodes := by
  unfold mergeNode
  by_cases h : n ∈ g.nodes
  · rw [if_pos h]; exact h
  · rw [if_neg h]; simp

theorem mergeNode_preserves_node {g : KGraph} {x : List Char} (n : List Char)
    (h : x ∈ g.nodes) : x ∈ (mergeNode g n).nodes := by
  unfold mergeNode
  by_cases hm : n ∈ g.nodes
  · rw [if_pos hm]; exact h
  · rw [if_neg hm]; simp [h]

theorem mergeNode_edges (g : KGraph) (n : List Char) : (mergeNode g n).edges = g.edges := by
  unfold mergeNode
  by_cases hm : n ∈ g.nodes
  · rw [if_pos hm]
  · rw [if_neg hm]

theorem mergeEdge_nodes (g : KGraph) (h r t : List Char) :
    (mergeEdge g h r t).nodes = g.nodes := by
  unfold mergeEdge
  by_cases hm : (h, r, t) ∈ g.edges
  · rw [if_pos hm]
  · rw [if_neg hm]

theorem mergeEdge_edge_mem (g : KGraph) (h r t : List Char) :
    (h, r, t) ∈ (mergeEdge g h r t).edges := by
  unfold mergeEdge
  by_cases hm : (h, r, t) ∈ g.edges
  · rw [if_pos hm]; exact hm
  · rw [if_neg hm]; simp

theorem mergeEdge_preserves_edge {g : KGraph} {e : T3} (h r t : List Char)
    (he : e ∈ g.edges) : e ∈ (mergeEdge g h r t).edges := by
  unfold mergeEdge
  by_cases hm : (h, r, t) ∈ g.edges
  · rw [if_pos hm]; exact he
  · rw [if_neg hm]; simp [he]

theorem mergeNode_id {g : KGraph} {n : List Char} (h : n ∈ g.nodes) : mergeNode g n = g := by
  unfold mergeNode; rw [if_pos h]

theorem mergeEdge_id {g : KGraph} {h r t : List Char} (he : (h, r, t) ∈ g.edges) :
    mergeEdge g h r t = g := by
  unfold mergeEdge; rw [if_pos he]

theorem storeTripleStep_node_mono {g : KGraph} {x : List Char} (tr : T3)
    (h : x ∈ g.nodes) : x ∈ (storeTripleStep g tr).nodes := by
  unfold storeTripleStep
  by_cases hv : normalizeEntity tr.fst ≠ [] ∧ normalizeEntity tr.snd.snd ≠ [] ∧
      normalizeRelation tr.snd.fst ≠ []
  · rw [if_pos hv, mergeEdge_nodes]
    exact mergeNode_preserves_node _ (mergeNode_preserves_node _ h)
  · rw [if_neg hv]; exact h

theorem storeTripleStep_edge_mono {g : KGraph} {e : T3} (tr : T3)
    (h : e ∈ g.edges) : e ∈ (storeTripleStep g tr).edges := by
  unfold storeTripleStep
  by_cases hv : normalizeEntity tr.fst ≠ [] ∧ normalizeEntity tr.snd.snd ≠ [] ∧
      normalizeRelation tr.snd.fst ≠ []
  · rw [if_pos hv]
    refine mergeEdge_preserves_edge _ _ _ ?_
    rw [mergeNode_edges, mergeNode_edges]
    exact h
  · rw [if_neg hv]; exact h

theorem storeTripleStep_present {g : KGraph} (tr : T3) (hv : ¬tripleInvalid tr) :
    triplePresent (storeTripleStep g tr) tr := by
  unfold tripleInvalid at hv
  rw [not_not] at hv
  unfold storeTripleStep triplePresent
  rw [if_pos hv]
  refine ⟨?_, ?_, mergeEdge_edge_mem _ _ _ _⟩
  · rw [mergeEdge_nodes]
    exact mergeNode_preserves_node _ (mergeNode_node_mem _ _)
  · rw [mergeEdge_nodes]
    exact mergeNode_node_mem _ _

theorem storeTripleStep_preserves_present {g : KGraph} {tr : T3} (tr' : T3)
    (h : triplePresent g tr) : triplePresent (storeTripleStep g tr') tr :=
  ⟨storeTripleStep_node_mono tr' h.1, storeTripleStep_node_mono tr' h.2.1,
    storeTripleStep_edge_mono tr' h.2.2⟩

theorem storeTriples_preserves_present {tr : T3} :
    ∀ (ts : List T3) (g : KGraph), triplePresent g tr →
      triplePresent (storeTriplesInNeo4j g ts) tr := by
  intro ts
  induction ts with
  | nil => intro g h; exact h
  | cons x t ih =>
    intro g h
    unfold storeTriplesInNeo4j at ih ⊢
    rw [List.foldl_cons]
    exact ih _ (storeTripleStep_preserves_present x h)

theorem storeTriples_all_present :
    ∀ (ts : List T3) (g : KGraph) (tr : T3), tr ∈ ts → ¬tripleInvalid tr →
      triplePresent (storeTriplesInNeo4j g ts) tr := by
  intro ts
  induction ts with
  | nil => intro g tr h; cases h
  | cons x t ih =>
    intro g tr h hv
    unfold storeTriplesInNeo4j
    rw [List.foldl_cons]
    rcases List.mem_cons.mp h with h1 | h2
    · subst h1
      exact storeTriples_preserves_present t _ (storeTripleStep_present tr hv)
    · exact ih _ tr h2 hv

theorem storeTripleStep_id {g : KGraph} {tr : T3}
    (h : ¬tripleInvalid tr → triplePresent g tr) : storeTripleStep g tr = g := by
  unfold storeTripleStep
  by_cases hv : normalizeEntity tr.fst ≠ [] ∧ normalizeEntity tr.snd.snd ≠ [] ∧
      normalizeRelation tr.snd.fst ≠ []
  · rw [if_pos hv]
    have hp := h (by unfold tripleInvalid; rw [not_not]; exact hv)
    rw [mergeNode_id hp.1, mergeNode_id hp.2.1, mergeEdge_id hp.2.2]
  · rw [if_neg hv]

theorem storeTriples_id {g : KGraph} :
    ∀ {ts : List T3}, (∀ tr ∈ ts, ¬tripleInvalid tr → triplePresent g tr) →
      storeTriplesInNeo4j g ts = g := by
  intro ts
  induction ts with
  | nil => intro _; rfl
  | cons x t ih =>
    intro h
    unfold storeTriplesInNeo4j
    rw [List.foldl_cons, storeTripleStep_id (h x (List.mem_cons_self x t))]
    exact ih (fun tr htr => h tr (List.mem_cons_of_mem _ htr))

theorem mergeNode_nodup_nodes {g : KGraph} (n : List Char) (h : g.nodes.Nodup) :
    (mergeNode g n).nodes.Nodup := by
  unfold mergeNode
  by_cases hm : n ∈ g.nodes
  · rw [if_pos hm]; exact h
  · rw [if_neg hm]
    simp only
    rw [List.nodup_append]
    refine ⟨h, List.nodup_singleton n, ?_⟩
    intro x hx hx2
    rw [List.mem_singleton.mp hx2] at hx
    exact hm hx

theorem mergeEdge_nodup_edges {g : KGraph} (h r t : List Char) (hn : g.edges.Nodup) :
    (mergeEdge g h r t).edges.Nodup := by
  unfold mergeEdge
  by_cases hm : (h, r, t) ∈ g.edges
  · rw [if_pos hm]; exact hn
  · rw [if_neg hm]
    simp only
    rw [List.nodup_append]
    refine ⟨hn, List.nodup_singleton _, ?_⟩
    intro x hx hx2
    rw [List.mem_singleton.mp hx2] at hx
    exact hm hx

theorem storeTripleStep_nodup {g : KGraph} (tr : T3) :
    (g.nodes.Nodup → (storeTripleStep g tr).nodes.Nodup) ∧
    (g.edges.Nodup → (storeTripleStep g tr).edges.Nodup) := by
  unfold storeTripleStep
  by_cases hv : normalizeEntity tr.fst ≠ [] ∧ normalizeEntity tr.snd.snd ≠ [] ∧
      normalizeRelation tr.snd.fst ≠ []
  · rw [if_pos hv]
    constructor
    · intro h
      rw [mergeEdge_nodes]
      exact mergeNode_nodup_nodes _ (mergeNode_nodup_nodes _ h)
    · intro h
      refine mergeEdge_nodup_edges _ _ _ ?_
      rw [mergeNode_edges, mergeNode_edges]
      exact h
  · rw [if_neg hv]; exact ⟨id, id⟩

theorem storeTriples_nodup :
    ∀ (ts : List T3) (g : KGraph),
      (g.nodes.Nodup → (storeTriplesInNeo4j g ts).nodes.Nodup) ∧
      (g.edges.Nodup → (storeTriplesInNeo4j g ts).edges.Nodup) := by
  intro ts
  induction ts with
  | nil => intro g; exact ⟨id, id⟩
  | cons x t ih =>
    intro g
    unfold storeTriplesInNeo4j
    rw [List.foldl_cons]
    constructor
    · intro h
      exact (ih _).1 ((storeTripleStep_nodup x).1 h)
    · intro h
      exact (ih _).2 ((storeTripleStep_nodup x).2 h)

theorem triplesOfPattern_word {relation : List Char} {pat : PatSpec} {text : List Char} {tr : T3}
    (h : tr ∈ triplesOfPattern relation pat text) :
    (∀ c ∈ tr.fst, isWordChar c = true ∧ isPySpace c = false) ∧
    (∀ c ∈ tr.snd.snd, isWordChar c = true ∧ isPySpace c = false) := by
  rcases mem_triplesOfPattern h with ⟨m, hm, _, he⟩
  unfold findMatches at hm
  have hw := findMatchesF_all_word hm
  subst he
  constructor
  · intro c hc
    have h1 := hw.1 c (mem_of_mem_pyStrip hc)
    exact ⟨h1, isWordChar_not_space h1⟩
  · intro c hc
    have h1 := hw.2 c (mem_of_mem_pyStrip hc)
    exact ⟨h1, isWordChar_not_space h1⟩

theorem splitSep2_ne_nil (a b : Char) (l : List Char) : splitSep2 a b l ≠ [] := by
  induction l using splitSep2.induct a b with
  | case1 => simp [splitSep2]
  | case2 c => simp [splitSep2]
  | case3 c d rest hde _ => rw [splitSep2, if_pos hde]; simp
  | case4 c d rest hde hsp _ => rw [splitSep2, if_neg hde, hsp]; simp
  | case5 c d rest hde t ts hsp _ => rw [splitSep2, if_neg hde, hsp]; simp

/-!  ## Claims -/

set_option maxRecDepth 8000

/-- C1: on the semantic path of `SimpleHybridRAGService._vector_search` the
retrieval is requested with `n_results=3`; when it yields zero passages the
fixed answer "No relevant information found" with an empty evidence list is
returned (first conjunct).  When it yields at least one passage the code does
*not* concatenate the retrieved passage texts: `results.get('documents')` is
attribute access on the *list* returned by `query_embedding`, which raises
`AttributeError`, so the caught-error string is returned instead (second
conjunct, evaluating the code at the failing input). -/
theorem C1_vector_search_zero_and_nonzero :
    vectorSearchService true cqEmpty ( "What is FastAPI?".toList) =
      ⟨ "No relevant information found".toList, []⟩ ∧
    vectorSearchService true cqOne ( "What is FastAPI?".toList) =
      ⟨ "Vector search error: \x27list\x27 object has no attribute \x27get\x27".toList, []⟩ := by
  exact ⟨by decide, by decide⟩

/-- C2 (amended): against an empty corpus (an index whose retrieval returns no
hits and an empty stored relationship list), `SimpleHybridRAGService.query`
returns a `status="success"` envelope with empty sources whose answer is one
of the two fixed "no relevant ..." texts, on either route, without raising. -/
theorem C2_service_empty_corpus_success (cq : List Char → Nat → ChromaRaw) (mc : Bool)
    (gen : List Char → Except (List Char) (List Char)) (q : List Char)
    (h : queryEmbedding (cq q 3) = []) :
    (queryService true cq (some []) mc gen q).status = "success".toList ∧
    (queryService true cq (some []) mc gen q).sources = [] ∧
    ((queryService true cq (some []) mc gen q).answer = "No relevant information found".toList ∨
     (queryService true cq (some []) mc gen q).answer = "No relevant relationships found".toList) := by
  rcases routeQueryService_graph_or_vector q with hr | hr
  · have he : queryService true cq (some []) mc gen q =
        ⟨ "success".toList, "No relevant relationships found".toList, "graph".toList, []⟩ := by
      unfold queryService
      rw [hr]
      dsimp only
      rw [if_neg (by decide : ¬(( "graph".toList : List Char) = "vector".toList))]
      rfl
    rw [he]
    exact ⟨rfl, rfl, Or.inr rfl⟩
  · have he : queryService true cq (some []) mc gen q =
        ⟨ "success".toList, "No relevant information found".toList, "vector".toList, []⟩ := by
      unfold queryService
      rw [hr]
      dsimp only
      rw [if_pos rfl]
      simp only [vectorSearchService, h]
      rfl
    rw [he]
    exact ⟨rfl, rfl, Or.inl rfl⟩

/-- C2 counterexample: the standalone `/query` endpoint `query_rag` rejects an
empty-corpus query before routing: the internal `HTTPException(400, ...)` is
caught by its own `except` clause and re-raised as an HTTP 500 error, so the
caller gets an error, not a `status="success"` envelope. -/
theorem C2_standalone_empty_corpus_http_error :
    queryRag [] [] false genNone ( "What is FastAPI?".toList) =
      Except.error ⟨500, "Query failed: 400: No data ingested. Please call /ingest first.".toList⟩ := by
  rfl

theorem C2_service_empty_corpus_success_witness :
    queryEmbedding (cqEmpty ( "What is FastAPI?".toList) 3) = [] ∧
    (queryService true cqEmpty (some []) false genNone ( "What is FastAPI?".toList)).status =
      "success".toList ∧
    (queryService true cqEmpty (some []) false genNone ( "What is FastAPI?".toList)).sources = [] := by
  refine ⟨by decide, ?_, ?_⟩
  · exact (C2_service_empty_corpus_success cqEmpty false genNone _ (by decide)).1
  · exact (C2_service_empty_corpus_success cqEmpty false genNone _ (by decide)).2.1

/-- C3: persisting the same triple list twice leaves the relationship index
unchanged (node set and edge set equal to a single run), and the merge
semantics never introduce duplicate nodes or duplicate same-direction,
same-predicate edges. -/
theorem C3_store_triples_idempotent (g : KGraph) (ts : List T3) :
    storeTriplesInNeo4j (storeTriplesInNeo4j g ts) ts = storeTriplesInNeo4j g ts ∧
    (g.nodes.Nodup → (storeTriplesInNeo4j g ts).nodes.Nodup) ∧
    (g.edges.Nodup → (storeTriplesInNeo4j g ts).edges.Nodup) := by
  refine ⟨?_, (storeTriples_nodup ts g).1, (storeTriples_nodup ts g).2⟩
  apply storeTriples_id
  intro tr htr hv
  exact storeTriples_all_present ts g tr htr hv

theorem C3_store_triples_idempotent_witness :
    storeTriplesInNeo4j
        (storeTriplesInNeo4j (⟨[], []⟩ : KGraph)
          [( "FastAPI".toList, "HAS".toList, "routers".toList)])
        [( "FastAPI".toList, "HAS".toList, "routers".toList)] =
      storeTriplesInNeo4j (⟨[], []⟩ : KGraph)
        [( "FastAPI".toList, "HAS".toList, "routers".toList)] ∧
    (storeTriplesInNeo4j (⟨[], []⟩ : KGraph)
        [( "FastAPI".toList, "HAS".toList, "routers".toList)]).nodes.Nodup := by
  refine ⟨(C3_store_triples_idempotent ⟨[], []⟩ _).1,
    (C3_store_triples_idempotent ⟨[], []⟩ _).2.1 (by decide)⟩

/-- C4: both heuristic routers return exactly one of `"graph"`/`"vector"`
(relational/semantic); the relational indicator list is evaluated first, so any
relational hit routes `"graph"` even when a semantic indicator also occurs; with
no relational hit the result is `"vector"` whether a semantic indicator occurs
or not; and the two example questions route as the claim states. -/
theorem C4_heuristic_router :
    (∀ q : List Char,
      (routeQueryService q = "graph".toList ∨ routeQueryService q = "vector".toList) ∧
      ((∃ k ∈ graphKeywordsService, isSubOf k (pyLower q) = true) →
        routeQueryService q = "graph".toList) ∧
      ((∀ k ∈ graphKeywordsService, isSubOf k (pyLower q) = false) →
        (∃ k ∈ vectorKeywordsService, isSubOf k (pyLower q) = true) →
        routeQueryService q = "vector".toList) ∧
      ((∀ k ∈ graphKeywordsService, isSubOf k (pyLower q) = false) →
        (∀ k ∈ vectorKeywordsService, isSubOf k (pyLower q) = false) →
        routeQueryService q = "vector".toList)) ∧
    (∀ q : List Char,
      (routeQueryStandalone q = "graph".toList ∨ routeQueryStandalone q = "vector".toList) ∧
      ((∃ k ∈ graphKeywordsStandalone, isSubOf k (pyLower q) = true) →
        routeQueryStandalone q = "graph".toList) ∧
      ((∀ k ∈ graphKeywordsStandalone, isSubOf k (pyLower q) = false) →
        (∃ k ∈ vectorKeywordsStandalone, isSubOf k (pyLower q) = true) →
        routeQueryStandalone q = "vector".toList) ∧
      ((∀ k ∈ graphKeywordsStandalone, isSubOf k (pyLower q) = false) →
        (∀ k ∈ vectorKeywordsStandalone, isSubOf k (pyLower q) = false) →
        routeQueryStandalone q = "vector".toList)) ∧
    routeQueryService ( "What is FastAPI?".toList) = "vector".toList ∧
    routeQueryStandalone ( "What is FastAPI?".toList) = "vector".toList ∧
    routeQueryService ( "How does FastAPI relate to routers?".toList) = "graph".toList ∧
    routeQueryStandalone ( "How does FastAPI relate to routers?".toList) = "graph".toList := by
  refine ⟨?_, ?_, by decide, by decide, by decide, by decide⟩
  · intro q
    refine ⟨routeQueryService_graph_or_vector q, ?_, ?_, ?_⟩
    · rintro ⟨k, hk, hsub⟩
      have hg : graphKeywordsService.any (fun k => isSubOf k (pyLower q)) = true :=
        List.any_eq_true.mpr ⟨k, hk, hsub⟩
      simp [routeQueryService, hg]
    · intro hno _
      have hg : graphKeywordsService.any (fun k => isSubOf k (pyLower q)) = false := by
        rw [List.any_eq_false]
        intro k hk
        rw [hno k hk]
        simp
      by_cases hv : vectorKeywordsService.any (fun k => isSubOf k (pyLower q)) = true <;>
        simp [routeQueryService, hg, hv]
    · intro hno _
      have hg : graphKeywordsService.any (fun k => isSubOf k (pyLower q)) = false := by
        rw [List.any_eq_false]
        intro k hk
        rw [hno k hk]
        simp
      by_cases hv : vectorKeywordsService.any (fun k => isSubOf k (pyLower q)) = true <;>
        simp [routeQueryService, hg, hv]
  · intro q
    refine ⟨routeQueryStandalone_graph_or_vector q, ?_, ?_, ?_⟩
    · rintro ⟨k, hk, hsub⟩
      have hg : graphKeywordsStandalone.any (fun k => isSubOf k (pyLower q)) = true :=
        List.any_eq_true.mpr ⟨k, hk, hsub⟩
      simp [routeQueryStandalone, hg]
    · intro hno _
      have hg : graphKeywordsStandalone.any (fun k => isSubOf k (pyLower q)) = false := by
        rw [List.any_eq_false]
        intro k hk
        rw [hno k hk]
        simp
      by_cases hv : vectorKeywordsStandalone.any (fun k => isSubOf k (pyLower q)) = true <;>
        simp [routeQueryStandalone, hg, hv]
    · intro hno _
      have hg : graphKeywordsStandalone.any (fun k => isSubOf k (pyLower q)) = false := by
        rw [List.any_eq_false]
        intro k hk
        rw [hno k hk]
        simp
      by_cases hv : vectorKeywordsStandalone.any (fun k => isSubOf k (pyLower q)) = true <;>
        simp [routeQueryStandalone, hg, hv]

theorem C4_heuristic_router_witness :
    (∃ k ∈ graphKeywordsService,
      isSubOf k (pyLower ( "How does FastAPI relate to routers?".toList)) = true) ∧
    routeQueryService ( "How does FastAPI relate to routers?".toList) = "graph".toList :=
  ⟨by decide, (C4_heuristic_router.1 ( "How does FastAPI relate to routers?".toList)).2.1 (by decide)⟩

/-- C5: the pattern extractor's predicate lookup maps each verb family to its
canonical predicate (the six equations); every produced triple has both
entities longer than 2 characters (entities shorter than 3 are discarded), in
both variants; the example text yields the triple `(FastAPI, HAS, routers)` in
both variants; and a fully upper-cased verb still matches (case-insensitive
matching). -/
theorem C5_pattern_extraction_contract :
    (relationForPattern ( r"(\w+)\s+(?:is|are)\s+(?:a|an)?\s*(\w+)".toList) = "IS_A".toList ∧
     relationForPattern ( r"(\w+)\s+(?:has|have)\s+(\w+)".toList) = "HAS".toList ∧
     relationForPattern ( r"(\w+)\s+(?:uses|use)\s+(\w+)".toList) = "USES".toList ∧
     relationForPattern ( r"(\w+)\s+(?:provides|provide)\s+(\w+)".toList) = "PROVIDES".toList ∧
     relationForPattern ( r"(\w+)\s+(?:includes|include)\s+(\w+)".toList) = "INCLUDES".toList ∧
     relationForPattern ( r"(\w+)\s+(?:supports|support)\s+(\w+)".toList) = "SUPPORTS".toList) ∧
    (∀ (text : List Char) (tr : T3), tr ∈ extractRelationshipsSimple text →
      2 < tr.fst.length ∧ 2 < tr.snd.snd.length) ∧
    (∀ (text : List Char) (tr : T3), tr ∈ extractRelationshipsStandalone text →
      2 < tr.fst.length ∧ 2 < tr.snd.snd.length) ∧
    ( "FastAPI".toList, "HAS".toList, "routers".toList) ∈
      extractRelationshipsSimple ( "FastAPI has routers. Routers enable organization.".toList) ∧
    ( "FastAPI".toList, "HAS".toList, "routers".toList) ∈
      extractRelationshipsStandalone ( "FastAPI has routers. Routers enable organization.".toList) ∧
    ( "Foo".toList, "USES".toList, "Bar".toList) ∈
      extractRelationshipsSimple ( "Foo USES Bar".toList) := by
  refine ⟨by decide, ?_, ?_, by decide, by decide, by decide⟩
  · intro text tr h
    rcases mem_extractRelationshipsSimple h with ⟨pp, _, h2⟩
    rcases mem_triplesOfPattern h2 with ⟨m, _, hl, he⟩
    subst he
    exact hl
  · intro text tr h
    rcases mem_extractRelationshipsStandalone h with ⟨pp, _, h2⟩
    rcases mem_triplesOfPattern h2 with ⟨m, _, hl, he⟩
    subst he
    exact hl

theorem C5_pattern_extraction_contract_witness :
    (( "FastAPI".toList, "HAS".toList, "routers".toList) ∈
      extractRelationshipsSimple ( "FastAPI has routers. Routers enable organization.".toList)) ∧
    2 < ( "FastAPI".toList, "HAS".toList, "routers".toList).fst.length :=
  ⟨by decide,
    (C5_pattern_extraction_contract.2.1 ( "FastAPI has routers. Routers enable organization.".toList)
      ( "FastAPI".toList, "HAS".toList, "routers".toList) (by decide)).1⟩

/-- C6 (amended): under the fixed-window policy (modelled from the spec for the
external splitter) the concatenation of all chunks contains every character of
the document; under the structural policy it contains every non-whitespace
character of each paragraph whose stripped length exceeds 50, while paragraphs
of stripped length at most 50 are discarded entirely (see the counterexample). -/
theorem C6_chunk_coverage_amended :
    (∀ (size overlap : Nat) (text : List Char) (c : Char), overlap < size → c ∈ text →
      c ∈ (fixedWindowChunk size overlap text).flatten) ∧
    (∀ (maxP packT : Nat) (text p : List Char) (c : Char),
      p ∈ splitSep2 '\n' '\n' text → 50 < (pyStrip p).length → c ∈ p → isPySpace c = false →
      c ∈ (chunkTextP maxP packT text).flatten) := by
  constructor
  · intro size overlap text c hov hc
    unfold fixedWindowChunk
    exact slideGo_cover size (size - overlap) (by omega) (by omega) text.length text
      (le_refl _) c hc
  · intro maxP packT text p c hp hlen hc hws
    have hflat : c ∈ (processPara maxP packT p).flatten := by
      unfold processPara
      rw [if_pos hlen]
      by_cases hbig : maxP < p.length
      · rw [if_pos hbig]
        rcases mem_flatten_splitSep2 '.' ' ' hc with hm | hdot | hsp
        · exact packLoop_cover packT c hws _ [] [] (Or.inr (Or.inr hm))
        · subst hdot
          exact packLoop_dot packT _ [] [] (Or.inr (splitSep2_ne_nil '.' ' ' p))
        · subst hsp
          simp [isPySpace] at hws
      · rw [if_neg hbig]
        simp only [List.flatten_cons, List.flatten_nil, List.append_nil]
        exact mem_pyStrip_of_mem hc hws
    rcases List.mem_flatten.mp hflat with ⟨ch, hch, hc2⟩
    rw [chunkTextP_eq_flatMap]
    exact List.mem_flatten.mpr ⟨ch, List.mem_flatMap.mpr ⟨p, hp, hch⟩, hc2⟩

/-- C6 counterexample: a document consisting of one short paragraph is dropped
entirely by the structural chunker of both variants, so its non-whitespace
characters do not appear in the (empty) chunk concatenation. -/
theorem C6_short_document_dropped :
    ('h' ∈ ( "hello".toList) ∧ isPySpace 'h' = false) ∧
    chunkTextService ( "hello".toList) = [] ∧
    chunkTextStandalone ( "hello".toList) = [] := by
  decide

theorem C6_chunk_coverage_amended_witness :
    (50 < 300 ∧ 'h' ∈ (fixedWindowChunk 300 50 ( "hello world".toList)).flatten) ∧
    (List.replicate 60 'a' ∈ splitSep2 '\n' '\n' (List.replicate 60 'a') ∧
      'a' ∈ (chunkTextP 500 400 (List.replicate 60 'a')).flatten) := by
  refine ⟨⟨by decide, ?_⟩, ⟨by decide, ?_⟩⟩
  · exact C6_chunk_coverage_amended.1 300 50 ( "hello world".toList) 'h' (by decide) (by decide)
  · exact C6_chunk_coverage_amended.2 500 400 (List.replicate 60 'a') (List.replicate 60 'a') 'a'
      (by decide) (by decide) (by decide) (by decide)

/-- C7 (amended): every chunk emitted by the structural chunker comes from a
paragraph whose *stripped* length exceeds 50; a paragraph of length at most
`maxP` (500 service / 400 standalone) is emitted whole, stripped; a longer
paragraph is re-split on `". "` and greedily packed against the packing
threshold `packT` (400 service / 350 standalone), and an emitted sub-chunk
either has length at most `packT + 1` or is a single (oversized) sentence plus
its re-appended `". "` terminator, stripped — so sub-chunks may be shorter
than 50 characters and a lone long sentence may exceed the claimed maximum
(see the counterexample). -/
theorem C7_structural_chunk_shape (maxP packT : Nat) (text ch : List Char)
    (h : ch ∈ chunkTextP maxP packT text) :
    ∃ p ∈ splitSep2 '\n' '\n' text, 50 < (pyStrip p).length ∧
      ((p.length ≤ maxP ∧ ch = pyStrip p) ∨
       (maxP < p.length ∧ (ch.length ≤ packT + 1 ∨
         ∃ s ∈ splitSep2 '.' ' ' p, ch = pyStrip (s ++ ('.' :: ' ' :: []))))) := by
  rcases mem_chunkTextP h with ⟨p, hp, hch⟩
  refine ⟨p, hp, ?_⟩
  unfold processPara at hch
  by_cases h50 : 50 < (pyStrip p).length
  · rw [if_pos h50] at hch
    refine ⟨h50, ?_⟩
    by_cases hbig : maxP < p.length
    · rw [if_pos hbig] at hch
      right
      refine ⟨hbig, ?_⟩
      have hall := packLoop_chunks packT (splitSep2 '.' ' ' p) (splitSep2 '.' ' ' p) [] []
        (fun s hs => hs) (Or.inl (by simp)) (by intro x hx; cases hx) ch hch
      exact hall
    · rw [if_neg hbig] at hch
      exact Or.inl ⟨Nat.le_of_not_lt hbig, List.mem_singleton.mp hch⟩
  · rw [if_neg h50] at hch
    cases hch

/-- C7 counterexample: a 504-character paragraph whose only `". "` boundary
sits after character 500 makes the service chunker emit one 501-character
chunk (exceeding the claimed 500 maximum) and one 3-character chunk (below
the claimed 50 minimum). -/
theorem C7_oversize_and_undersize_subchunks :
    (∃ ch ∈ chunkTextService (List.replicate 500 'a' ++ ( ". hi".toList)), ch.length < 50) ∧
    (∃ ch ∈ chunkTextService (List.replicate 500 'a' ++ ( ". hi".toList)), 500 < ch.length) := by
  decide

theorem C7_structural_chunk_shape_witness :
    (List.replicate 60 'a' ∈ chunkTextP 500 400 (List.replicate 60 'a')) ∧
    (∃ p ∈ splitSep2 '\n' '\n' (List.replicate 60 'a'), 50 < (pyStrip p).length ∧
      ((p.length ≤ 500 ∧ List.replicate 60 'a' = pyStrip p) ∨
       (500 < p.length ∧ ((List.replicate 60 'a').length ≤ 400 + 1 ∨
         ∃ s ∈ splitSep2 '.' ' ' p,
           List.replicate 60 'a' = pyStrip (s ++ ('.' :: ' ' :: [])))))) :=
  ⟨by decide,
    C7_structural_chunk_shape 500 400 (List.replicate 60 'a') (List.replicate 60 'a') (by decide)⟩

/-- C8: when the generator call for a chunk raises (the whole extractor body,
generation and parsing alike, sits inside the caught `try`), the extractor
returns the empty triple list for that chunk, and the ingestion accumulation
over the remaining chunks is unaffected: the failing chunk contributes nothing
while every other chunk contributes exactly its own triples. -/
theorem C8_generative_extraction_degrades (llm : List Char → Except (List Char) (List Char))
    (pre post : List (List Char)) (c e : List Char)
    (h : llm (extractPrompt c) = Except.error e) :
    extractEntitiesAndRelationships llm c = [] ∧
    allTriples llm (pre ++ c :: post) = allTriples llm pre ++ allTriples llm post := by
  have h1 : extractEntitiesAndRelationships llm c = [] := by
    unfold extractEntitiesAndRelationships
    rw [h]
  refine ⟨h1, ?_⟩
  unfold allTriples
  rw [foldl_append_flatMap (extractEntitiesAndRelationships llm) (pre ++ c :: post) [],
    foldl_append_flatMap (extractEntitiesAndRelationships llm) pre [],
    foldl_append_flatMap (extractEntitiesAndRelationships llm) post []]
  simp [List.flatMap_append, List.flatMap_cons, h1]

theorem C8_generative_extraction_degrades_witness :
    llmFailOnBad (extractPrompt ( "bad chunk".toList)) =
      Except.error ( "LLM unavailable".toList) ∧
    extractEntitiesAndRelationships llmFailOnBad ( "bad chunk".toList) = [] ∧
    allTriples llmFailOnBad ([ "good chunk".toList] ++ ( "bad chunk".toList) :: []) =
      allTriples llmFailOnBad [ "good chunk".toList] ++ allTriples llmFailOnBad [] := by
  refine ⟨by rfl, ?_, ?_⟩
  · exact (C8_generative_extraction_degrades llmFailOnBad [ "good chunk".toList] []
      ( "bad chunk".toList) ( "LLM unavailable".toList) (by rfl)).1
  · exact (C8_generative_extraction_degrades llmFailOnBad [ "good chunk".toList] []
      ( "bad chunk".toList) ( "LLM unavailable".toList) (by rfl)).2

/-- C9: with the generator unconfigured (`model is None`), the relational path
and the standalone semantic path return the deterministic non-empty fallback
answers built from the formatted facts resp. the retrieved context (first four
conjuncts).  The service semantic path, however, never reaches its fallback
when retrieval yields a passage: `results.get('documents')` on the list
returned by `query_embedding` raises `AttributeError`, and the answer is the
caught-error string, not an answer built from the retrieved context (last
conjunct, evaluating the code at the failing input). -/
theorem C9_generator_unavailable_fallback :
    graphSearchService (some [( "FastAPI".toList, "HAS".toList, "routers".toList)]) false genNone
        ( "How does FastAPI relate to routers?".toList) =
      ⟨ "Based on the relationships:\n• FastAPI has routers".toList,
        [SrcEntry.knowledgeGraph 1]⟩ ∧
    (graphSearchService (some [( "FastAPI".toList, "HAS".toList, "routers".toList)]) false genNone
        ( "How does FastAPI relate to routers?".toList)).answer ≠ [] ∧
    vectorSearchStandalone [ "FastAPI is a modern web framework for building APIs".toList] false
        genNone ( "what is fastapi".toList) =
      ⟨ "Based on the available information: FastAPI is a modern web framework for building APIs...".toList,
        [SrcEntry.vectorType 1]⟩ ∧
    (vectorSearchStandalone [ "FastAPI is a modern web framework for building APIs".toList] false
        genNone ( "what is fastapi".toList)).answer ≠ [] ∧
    (vectorSearchService true cqOne ( "what is fastapi".toList)).answer =
      "Vector search error: \x27list\x27 object has no attribute \x27get\x27".toList := by
  exact ⟨by decide, by decide, by decide, by decide, by decide⟩

/-- C10: every triple produced by the pattern-based extractor, in both
variants, has entities consisting solely of `\w` word characters (the single
`\w+` capture groups), hence containing no whitespace and in particular no
spaces — multi-word entities are impossible. -/
theorem C10_entities_single_word :
    (∀ (text : List Char) (tr : T3), tr ∈ extractRelationshipsSimple text →
      (∀ c ∈ tr.fst, isWordChar c = true ∧ isPySpace c = false) ∧
      (∀ c ∈ tr.snd.snd, isWordChar c = true ∧ isPySpace c = false)) ∧
    (∀ (text : List Char) (tr : T3), tr ∈ extractRelationshipsStandalone text →
      (∀ c ∈ tr.fst, isWordChar c = true ∧ isPySpace c = false) ∧
      (∀ c ∈ tr.snd.snd, isWordChar c = true ∧ isPySpace c = false)) := by
  constructor
  · intro text tr h
    rcases mem_extractRelationshipsSimple h with ⟨pp, _, h2⟩
    exact triplesOfPattern_word h2
  · intro text tr h
    rcases mem_extractRelationshipsStandalone h with ⟨pp, _, h2⟩
    exact triplesOfPattern_word h2

theorem C10_entities_single_word_witness :
    (( "FastAPI".toList, "HAS".toList, "routers".toList) ∈
      extractRelationshipsSimple ( "FastAPI has routers. Routers enable organization.".toList)) ∧
    (∀ c ∈ ( "FastAPI".toList), isWordChar c = true ∧ isPySpace c = false) :=
  ⟨by decide,
    ((C10_entities_single_word.1 ( "FastAPI has routers. Routers enable organization.".toList)
      ( "FastAPI".toList, "HAS".toList, "routers".toList) (by decide)).1)⟩
